import Mathlib

/-!
# Verification of the heimdall raster tile/statistics/profile engine

Shallow embedding of the core numerical logic of `src-tauri/src/gdal/tile_extractor.rs`
and `src-tauri/src/commands/raster.rs`.

Modelling conventions:
* Rust `f64` values are modelled as exact rationals (`ℚ`).  A small inductive
  wrapper `FVal` additionally carries the non-finite floats (`NaN`, `±∞`)
  where the source explicitly tests `is_finite()`.  `f64::min`, `f64::max`,
  `abs` and `clamp` are modelled by the if-based `ratMin`/`ratMax`/`ratAbs`
  below (definitionally the same case split IEEE performs on finite values).
* The transcendental gamma correction `clamped.powf(1.0 / stretch.gamma)` is
  modelled by an abstract function parameter `gpow : ℚ → ℚ` standing for
  `x ↦ x ^ (1 / gamma)`.  The only facts about it the source relies on at the
  points the claims touch are `gpow 0 = 0` and `gpow 1 = 1`, which hold
  exactly for IEEE `powf` whenever `gamma > 0`; theorems take those equations
  as hypotheses, and witnesses instantiate `gpow := id` (the `gamma = 1` case,
  where `powf (x, 1.0) = x` exactly).
* External GDAL primitives (dataset open, band read, coordinate transforms,
  Haversine/pixel distances which use `sin`/`sqrt`/`atan2`) are abstracted as
  function parameters ("oracles"); everything the repository itself computes
  is translated directly.
* Rust `Vec<u8>` RGBA buffers are modelled as total index functions `ℕ → ℕ`;
  `buf[i] = v` becomes a pointwise functional update.
-/

/-- Model of `f64::min` on finite values. -/
def ratMin (a b : ℚ) : ℚ := if a ≤ b then a else b

/-- Model of `f64::max` on finite values. -/
def ratMax (a b : ℚ) : ℚ := if a ≤ b then b else a

/-- Model of `f64::abs` on finite values. -/
def ratAbs (q : ℚ) : ℚ := if q < 0 then -q else q

theorem ratMin_eq_min (a b : ℚ) : ratMin a b = min a b := by
  simp only [ratMin, min_def]

theorem ratMax_eq_max (a b : ℚ) : ratMax a b = max a b := by
  simp only [ratMax, max_def]

theorem ratAbs_eq_abs (q : ℚ) : ratAbs q = |q| := by
  rw [ratAbs, abs]
  rcases lt_trichotomy q 0 with h | h | h
  · rw [if_pos h, max_eq_right (by linarith : q ≤ -q)]
  · subst h; norm_num
  · rw [if_neg (by linarith), max_eq_left (by linarith : -q ≤ q)]

/-- Rational model of an `f64` value: either a finite rational or one of the
three non-finite classes.  Comparisons with `NaN` are `false` in IEEE; the
definitions below only ever compare finite payloads, mirroring that. -/
inductive FVal where
  | finite (q : ℚ)
  | nan
  | posInf
  | negInf
deriving DecidableEq

/-- Stretch parameters from `tile_extractor.rs` (`StretchParams`): the
`[min, max]` display window.  The `gamma` exponent enters the computation only
through the abstract gamma-correction parameter `gpow` (see module docstring),
so it is not stored here. -/
structure StretchParams where
  min : ℚ
  max : ℚ
deriving DecidableEq

/-- The nodata comparison used throughout the source:
`nodata.is_some_and(|nd| (val - nd).abs() < 1e-10)`. -/
def nearNodata (v : ℚ) (nodata : Option ℚ) : Bool :=
  match nodata with
  | some nd => decide (ratAbs (v - nd) < 1 / 10 ^ 10)
  | none => false

theorem nearNodata_iff (v nd : ℚ) :
    nearNodata v (some nd) = true ↔ |v - nd| < 1 / 10 ^ 10 := by
  simp [nearNodata, ratAbs_eq_abs]

/-- The final byte conversion of `apply_stretch`:
`(gamma_corrected * 255.0).clamp(0.0, 255.0) as u8`.  Rust's `clamp` is
`min (max x lo) hi` and the `as u8` cast truncates toward zero, which on the
clamped non-negative range is the floor. -/
def clampToByte (q : ℚ) : ℕ :=
  Int.toNat ⌊ratMin (ratMax q 0) 255⌋

/-- Model of `apply_stretch` (`tile_extractor.rs` lines 176-194).  The source
guard is `val == 0.0 || nodata.is_some_and(|nd| (val - nd).abs() < 1e-10) ||
!val.is_finite()`; for the non-finite values the first two disjuncts are
IEEE-false and the third is true, so matching them straight to `none` is
equivalent. -/
def apply_stretch (gpow : ℚ → ℚ) (val : FVal) (stretch : StretchParams)
    (nodata : Option ℚ) : Option ℕ :=
  match val with
  | .finite v =>
    if v = 0 ∨ nearNodata v nodata then none
    else
      let range := if stretch.min < stretch.max then stretch.max - stretch.min else 1
      let normalized := (v - stretch.min) / range
      let clamped := ratMin (ratMax normalized 0) 1
      some (clampToByte (gpow clamped * 255))
  | _ => none

/-- C2 counterexample at `stretch = { min := -1, max := 0 }`, `gamma = 1`
(`gpow := id`): the claim demands `normalize(stretch.max, stretch, None) = 255`
for every stretch, but `stretch.max = 0.0` trips the always-invalid zero
sentinel of `apply_stretch` and the result is `none`, not `some 255`. -/
theorem apply_stretch_max_zero_not_saturated :
    apply_stretch id (.finite (0 : ℚ)) ⟨-1, 0⟩ none = none ∧
      (⟨-1, 0⟩ : StretchParams).max = 0 ∧
      apply_stretch id (.finite (⟨-1, 0⟩ : StretchParams).max) ⟨-1, 0⟩ none ≠
        some 255 := by
  refine ⟨rfl, rfl, ?_⟩
  simp [apply_stretch]

/-- C2 (amended): for a non-degenerate stretch (`min < max`) whose `max` is not
the literal-zero sentinel, and with no nodata sentinel, `apply_stretch` maps
`stretch.max` to exactly byte 255; and any finite value strictly below
`stretch.min` other than the zero sentinel maps to exactly byte 0.  The
hypotheses `gpow 1 = 1` and `gpow 0 = 0` hold of `x ^ (1/gamma)` for every
`gamma > 0`. -/
theorem apply_stretch_saturation (gpow : ℚ → ℚ) (s : StretchParams)
    (hlt : s.min < s.max) (hmax : s.max ≠ 0)
    (hg1 : gpow 1 = 1) (hg0 : gpow 0 = 0) :
    apply_stretch gpow (.finite s.max) s none = some 255 ∧
      ∀ v : ℚ, v ≠ 0 → v < s.min →
        apply_stretch gpow (.finite v) s none = some 0 := by
  have hrange : s.max - s.min > 0 := by linarith
  constructor
  · simp only [apply_stretch, nearNodata, hmax, or_false, if_false, if_pos hlt]
    have hnorm : (s.max - s.min) / (s.max - s.min) = 1 :=
      div_self (ne_of_gt hrange)
    rw [hnorm]
    have h1 : ratMin (ratMax (1 : ℚ) 0) 1 = 1 := by
      rw [ratMin_eq_min, ratMax_eq_max]; norm_num
    rw [h1, hg1]
    have h255 : Int.toNat 255 = 255 := rfl
    norm_num [clampToByte, ratMin, ratMax, h255]
  · intro v hv hlt2
    simp only [apply_stretch, nearNodata, hv, or_false, if_false, if_pos hlt]
    have hneg : (v - s.min) / (s.max - s.min) < 0 :=
      div_neg_of_neg_of_pos (by linarith) hrange
    have h0 : ratMin (ratMax ((v - s.min) / (s.max - s.min)) 0) 1 = 0 := by
      rw [ratMin_eq_min, ratMax_eq_max, max_eq_right (le_of_lt hneg)]
      norm_num
    rw [h0, hg0]
    have hz : Int.toNat 0 = 0 := rfl
    norm_num [clampToByte, ratMin, ratMax, hz]

/-- C2 witness: concrete saturation at `stretch = { min := 0, max := 100 }`,
`gamma = 1`. -/
theorem apply_stretch_saturation_witness :
    apply_stretch id (.finite (100 : ℚ)) ⟨0, 100⟩ none = some 255 ∧
      apply_stretch id (.finite (-3 : ℚ)) ⟨0, 100⟩ none = some 0 := by
  have h := apply_stretch_saturation id ⟨0, 100⟩ (by norm_num) (by norm_num)
    rfl rfl
  exact ⟨h.1, h.2 (-3) (by norm_num) (by norm_num)⟩

/-- C5: `apply_stretch` returns `none` exactly on the invalid inputs: the
literal `0.0`, a value within `1e-10` of the nodata sentinel, or a non-finite
value; in particular the value `0.0` is `none` for every stretch, every
gamma correction and every nodata sentinel. -/
theorem apply_stretch_none_iff (gpow : ℚ → ℚ) (s : StretchParams)
    (nodata : Option ℚ) :
    apply_stretch gpow (.finite 0) s nodata = none ∧
      ∀ val : FVal,
        (apply_stretch gpow val s nodata = none ↔
          val = .finite 0 ∨
            (∃ v nd, val = .finite v ∧ nodata = some nd ∧ |v - nd| < 1 / 10 ^ 10) ∨
            val = .nan ∨ val = .posInf ∨ val = .negInf) := by
  constructor
  · simp [apply_stretch]
  · intro val
    cases val with
    | finite v =>
      by_cases hz : v = 0
      · subst hz
        simp [apply_stretch]
      · by_cases hnd : nearNodata v nodata = true
        · constructor
          · intro _
            refine Or.inr (Or.inl ?_)
            cases h : nodata with
            | none => rw [h] at hnd; simp [nearNodata] at hnd
            | some nd =>
              rw [h] at hnd
              exact ⟨v, nd, rfl, rfl, (nearNodata_iff v nd).1 hnd⟩
          · intro _
            simp [apply_stretch, hnd]
        · simp only [apply_stretch, hz, false_or, hnd, if_false]
          constructor
          · intro h
            exact absurd h (by simp)
          · rintro (h | ⟨w, nd, hw, hnod, hcl⟩ | h | h | h)
            · exact absurd (FVal.finite.inj h) hz
            · exfalso
              apply hnd
              have hvw : v = w := FVal.finite.inj hw
              subst hvw
              rw [hnod, nearNodata_iff]
              exact hcl
            all_goals exact absurd h (by simp)
    | nan => simp [apply_stretch]
    | posInf => simp [apply_stretch]
    | negInf => simp [apply_stretch]

/-! ## RGBA pixel buffers and the compositors -/

/-- A `Vec<u8>` RGBA buffer modelled as a total index function. -/
def bufWrite (buf : ℕ → ℕ) (idx v : ℕ) : ℕ → ℕ :=
  fun j => if j = idx then v else buf j

/-- The freshly allocated `vec![0u8; tile_size * tile_size * 4]` buffer. -/
def zeroBuf : ℕ → ℕ := fun _ => 0

/-- The four consecutive byte stores
`tile_data[idx] = r; tile_data[idx+1] = g; tile_data[idx+2] = b;
tile_data[idx+3] = a` of the compositing loops. -/
def writePixelRGBA (buf : ℕ → ℕ) (idx r g b a : ℕ) : ℕ → ℕ :=
  bufWrite (bufWrite (bufWrite (bufWrite buf idx r) (idx + 1) g) (idx + 2) b)
    (idx + 3) a

/-- Generic form of the compositing loops of `tile_extractor.rs`: for each
pixel index `i` in `0..n`, either write an RGBA quadruple at byte offset
`4 * i` or leave the (pre-zeroed) buffer untouched. -/
def pixelWrites (write : ℕ → Option (ℕ × ℕ × ℕ × ℕ)) (n : ℕ) : ℕ → ℕ :=
  (List.range n).foldl (fun buf i =>
    match write i with
    | some (r, g, b, a) => writePixelRGBA buf (4 * i) r g b a
    | none => buf) zeroBuf

/-- Red component of an optional RGBA write (0 when no write happens). -/
def pixR (w : Option (ℕ × ℕ × ℕ × ℕ)) : ℕ :=
  match w with
  | some (r, _, _, _) => r
  | none => 0

/-- Green component of an optional RGBA write. -/
def pixG (w : Option (ℕ × ℕ × ℕ × ℕ)) : ℕ :=
  match w with
  | some (_, g, _, _) => g
  | none => 0

/-- Blue component of an optional RGBA write. -/
def pixB (w : Option (ℕ × ℕ × ℕ × ℕ)) : ℕ :=
  match w with
  | some (_, _, b, _) => b
  | none => 0

/-- Alpha component of an optional RGBA write. -/
def pixA (w : Option (ℕ × ℕ × ℕ × ℕ)) : ℕ :=
  match w with
  | some (_, _, _, a) => a
  | none => 0

theorem writePixelRGBA_outside (buf : ℕ → ℕ) (idx r g b a j : ℕ)
    (h : j < idx ∨ idx + 4 ≤ j) : writePixelRGBA buf idx r g b a j = buf j := by
  simp only [writePixelRGBA, bufWrite]
  rw [if_neg (by omega), if_neg (by omega), if_neg (by omega), if_neg (by omega)]

theorem writePixelRGBA_eval (buf : ℕ → ℕ) (idx r g b a : ℕ) :
    writePixelRGBA buf idx r g b a idx = r ∧
      writePixelRGBA buf idx r g b a (idx + 1) = g ∧
      writePixelRGBA buf idx r g b a (idx + 2) = b ∧
      writePixelRGBA buf idx r g b a (idx + 3) = a := by
  refine ⟨?_, ?_, ?_, ?_⟩ <;> simp [writePixelRGBA, bufWrite]

theorem pixelWrites_succ_some (write : ℕ → Option (ℕ × ℕ × ℕ × ℕ)) (n r g b a : ℕ)
    (hw : write n = some (r, g, b, a)) :
    pixelWrites write (n + 1) = writePixelRGBA (pixelWrites write n) (4 * n) r g b a := by
  unfold pixelWrites
  rw [List.range_succ, List.foldl_append, List.foldl_cons, List.foldl_nil, hw]

theorem pixelWrites_succ_none (write : ℕ → Option (ℕ × ℕ × ℕ × ℕ)) (n : ℕ)
    (hw : write n = none) :
    pixelWrites write (n + 1) = pixelWrites write n := by
  unfold pixelWrites
  rw [List.range_succ, List.foldl_append, List.foldl_cons, List.foldl_nil, hw]

theorem pixelWrites_untouched (write : ℕ → Option (ℕ × ℕ × ℕ × ℕ)) :
    ∀ n j : ℕ, 4 * n ≤ j → pixelWrites write n j = 0 := by
  intro n
  induction n with
  | zero => intro j _; rfl
  | succ n ih =>
    intro j hj
    cases hw : write n with
    | none =>
      rw [pixelWrites_succ_none write n hw]
      exact ih j (by omega)
    | some q =>
      obtain ⟨r, g, b, a⟩ := q
      rw [pixelWrites_succ_some write n r g b a hw,
        writePixelRGBA_outside _ _ _ _ _ _ j (Or.inr (by omega))]
      exact ih j (by omega)

theorem pixelWrites_pixel (write : ℕ → Option (ℕ × ℕ × ℕ × ℕ)) :
    ∀ n i : ℕ, i < n →
      pixelWrites write n (4 * i) = pixR (write i) ∧
        pixelWrites write n (4 * i + 1) = pixG (write i) ∧
        pixelWrites write n (4 * i + 2) = pixB (write i) ∧
        pixelWrites write n (4 * i + 3) = pixA (write i) := by
  intro n
  induction n with
  | zero => intro i hi; exact absurd hi (by omega)
  | succ n ih =>
    intro i hi
    by_cases hin : i = n
    · subst hin
      cases hw : write i with
      | none =>
        rw [pixelWrites_succ_none write i hw]
        have h0 := pixelWrites_untouched write i
        rw [h0 (4 * i) (by omega), h0 (4 * i + 1) (by omega),
          h0 (4 * i + 2) (by omega), h0 (4 * i + 3) (by omega)]
        exact ⟨rfl, rfl, rfl, rfl⟩
      | some q =>
        obtain ⟨r, g, b, a⟩ := q
        rw [pixelWrites_succ_some write i r g b a hw]
        have he := writePixelRGBA_eval (pixelWrites write i) (4 * i) r g b a
        exact ⟨he.1, he.2.1, he.2.2.1, he.2.2.2⟩
    · have hi' : i < n := by omega
      obtain ⟨e0, e1, e2, e3⟩ := ih i hi'
      cases hw : write n with
      | none =>
        rw [pixelWrites_succ_none write n hw]
        exact ⟨e0, e1, e2, e3⟩
      | some q =>
        obtain ⟨r, g, b, a⟩ := q
        rw [pixelWrites_succ_some write n r g b a hw,
          writePixelRGBA_outside _ _ _ _ _ _ _ (Or.inl (by omega)),
          writePixelRGBA_outside _ _ _ _ _ _ _ (Or.inl (by omega)),
          writePixelRGBA_outside _ _ _ _ _ _ _ (Or.inl (by omega)),
          writePixelRGBA_outside _ _ _ _ _ _ _ (Or.inl (by omega))]
        exact ⟨e0, e1, e2, e3⟩

/-- Model of the per-pixel RGB compositing loop shared verbatim by
`extract_rgb_tile` (lines 316-330), `extract_cross_layer_pixel_rgb_tile`
(lines 467-480) and `extract_cross_layer_rgb_tile` (lines 534-547): each
channel is normalized independently, and a pixel is written opaque with the
missing channels as 0 iff any channel is valid. -/
def extract_rgb_pixels (gpow : ℚ → ℚ) (rs gs bs : StretchParams)
    (rnd gnd bnd : Option ℚ) (rdata gdata bdata : List FVal) : ℕ → ℕ :=
  pixelWrites (fun i =>
    let r := apply_stretch gpow (rdata.getD i (.finite 0)) rs rnd
    let g := apply_stretch gpow (gdata.getD i (.finite 0)) gs gnd
    let b := apply_stretch gpow (bdata.getD i (.finite 0)) bs bnd
    if r.isSome || g.isSome || b.isSome then
      some (r.getD 0, g.getD 0, b.getD 0, 255)
    else none) rdata.length

/-- Model of the grayscale compositing loop shared verbatim by
`extract_tile_with_stretch` (lines 226-236) and `extract_pixel_tile`
(lines 636-645): a valid sample is replicated into R, G, B with alpha 255,
an invalid sample leaves the transparent zero pixel. -/
def extract_gray_pixels (gpow : ℚ → ℚ) (s : StretchParams) (nodata : Option ℚ)
    (data : List FVal) : ℕ → ℕ :=
  pixelWrites (fun i =>
    match apply_stretch gpow (data.getD i (.finite 0)) s nodata with
    | some v => some (v, v, v, 255)
    | none => none) data.length

/-- C6: pixel semantics of the RGB compositing loop.  If at least one channel
normalizer returns a value the pixel is opaque (alpha 255) with each `None`
channel contributing byte 0; a pixel whose three channels are all invalid
stays fully transparent `(0, 0, 0, 0)`; in particular a pixel where only the
green channel is valid yields `(0, g, 0, 255)`. -/
theorem rgb_composite_pixel (gpow : ℚ → ℚ) (rs gs bs : StretchParams)
    (rnd gnd bnd : Option ℚ) (rdata gdata bdata : List FVal)
    (i : ℕ) (hi : i < rdata.length) (r g b : Option ℕ)
    (hr : r = apply_stretch gpow (rdata.getD i (.finite 0)) rs rnd)
    (hg : g = apply_stretch gpow (gdata.getD i (.finite 0)) gs gnd)
    (hb : b = apply_stretch gpow (bdata.getD i (.finite 0)) bs bnd) :
    ((r.isSome ∨ g.isSome ∨ b.isSome) →
      extract_rgb_pixels gpow rs gs bs rnd gnd bnd rdata gdata bdata (4 * i) = r.getD 0 ∧
        extract_rgb_pixels gpow rs gs bs rnd gnd bnd rdata gdata bdata (4 * i + 1) = g.getD 0 ∧
        extract_rgb_pixels gpow rs gs bs rnd gnd bnd rdata gdata bdata (4 * i + 2) = b.getD 0 ∧
        extract_rgb_pixels gpow rs gs bs rnd gnd bnd rdata gdata bdata (4 * i + 3) = 255) ∧
      (r = none ∧ g = none ∧ b = none →
        extract_rgb_pixels gpow rs gs bs rnd gnd bnd rdata gdata bdata (4 * i) = 0 ∧
          extract_rgb_pixels gpow rs gs bs rnd gnd bnd rdata gdata bdata (4 * i + 1) = 0 ∧
          extract_rgb_pixels gpow rs gs bs rnd gnd bnd rdata gdata bdata (4 * i + 2) = 0 ∧
          extract_rgb_pixels gpow rs gs bs rnd gnd bnd rdata gdata bdata (4 * i + 3) = 0) ∧
      (∀ gv : ℕ, r = none → g = some gv → b = none →
        extract_rgb_pixels gpow rs gs bs rnd gnd bnd rdata gdata bdata (4 * i) = 0 ∧
          extract_rgb_pixels gpow rs gs bs rnd gnd bnd rdata gdata bdata (4 * i + 1) = gv ∧
          extract_rgb_pixels gpow rs gs bs rnd gnd bnd rdata gdata bdata (4 * i + 2) = 0 ∧
          extract_rgb_pixels gpow rs gs bs rnd gnd bnd rdata gdata bdata (4 * i + 3) = 255) := by
  obtain ⟨e0, e1, e2, e3⟩ := pixelWrites_pixel
    (fun i =>
      let r := apply_stretch gpow (rdata.getD i (.finite 0)) rs rnd
      let g := apply_stretch gpow (gdata.getD i (.finite 0)) gs gnd
      let b := apply_stretch gpow (bdata.getD i (.finite 0)) bs bnd
      if r.isSome || g.isSome || b.isSome then
        some (r.getD 0, g.getD 0, b.getD 0, 255)
      else none)
    rdata.length i hi
  rw [extract_rgb_pixels]
  simp only [] at e0 e1 e2 e3
  rw [← hr, ← hg, ← hb] at e0 e1 e2 e3
  refine ⟨?_, ?_, ?_⟩
  · intro hsome
    have hcond : (r.isSome || g.isSome || b.isSome) = true := by
      rcases hsome with h | h | h <;> simp [h]
    rw [if_pos hcond] at e0 e1 e2 e3
    exact ⟨e0, e1, e2, e3⟩
  · rintro ⟨h1, h2, h3⟩
    subst h1; subst h2; subst h3
    rw [if_neg (by simp)] at e0 e1 e2 e3
    exact ⟨e0, e1, e2, e3⟩
  · intro gv h1 h2 h3
    subst h1; subst h2; subst h3
    have hcond : ((none : Option ℕ).isSome || (some gv).isSome ||
        (none : Option ℕ).isSome) = true := by simp
    rw [if_pos hcond] at e0 e1 e2 e3
    exact ⟨e0, e1, e2, e3⟩

/-- Evaluation helper: `apply_stretch` with `gamma = 1` maps the midpoint value
50 of the `[0, 100]` window to byte 127 (`floor (0.5 * 255)`). -/
theorem apply_stretch_fifty :
    apply_stretch id (.finite 50) ⟨0, 100⟩ none = some 127 := by
  simp only [apply_stretch, nearNodata]
  rw [if_neg (by norm_num)]
  have h127 : Int.toNat 127 = 127 := rfl
  norm_num [clampToByte, ratMin, ratMax, h127]

/-- C6 witness: a pixel whose red and blue samples are NaN and whose green
sample is 50 under the `[0, 100]` stretch composites to `(0, 127, 0, 255)`. -/
theorem rgb_composite_pixel_witness :
    extract_rgb_pixels id ⟨0, 100⟩ ⟨0, 100⟩ ⟨0, 100⟩ none none none
        [FVal.nan] [FVal.finite 50] [FVal.nan] (4 * 0) = 0 ∧
      extract_rgb_pixels id ⟨0, 100⟩ ⟨0, 100⟩ ⟨0, 100⟩ none none none
        [FVal.nan] [FVal.finite 50] [FVal.nan] (4 * 0 + 1) = 127 ∧
      extract_rgb_pixels id ⟨0, 100⟩ ⟨0, 100⟩ ⟨0, 100⟩ none none none
        [FVal.nan] [FVal.finite 50] [FVal.nan] (4 * 0 + 2) = 0 ∧
      extract_rgb_pixels id ⟨0, 100⟩ ⟨0, 100⟩ ⟨0, 100⟩ none none none
        [FVal.nan] [FVal.finite 50] [FVal.nan] (4 * 0 + 3) = 255 :=
  (rgb_composite_pixel id ⟨0, 100⟩ ⟨0, 100⟩ ⟨0, 100⟩ none none none
      [FVal.nan] [FVal.finite 50] [FVal.nan] 0 (by simp)
      none (some 127) none rfl
      (by simp only [List.getD_cons_zero]; exact apply_stretch_fifty.symm) rfl).2.2
    127 rfl rfl rfl

/-- The RGBA invariant of C10 at pixel `i` of a buffer: the alpha byte is 0 or
255, and a zero alpha forces zero color components. -/
def alphaInvariant (buf : ℕ → ℕ) (i : ℕ) : Prop :=
  (buf (4 * i + 3) = 0 ∨ buf (4 * i + 3) = 255) ∧
    (buf (4 * i + 3) = 0 → buf (4 * i) = 0 ∧ buf (4 * i + 1) = 0 ∧ buf (4 * i + 2) = 0)

theorem pixelWrites_alphaInvariant (write : ℕ → Option (ℕ × ℕ × ℕ × ℕ)) (n i : ℕ)
    (h : ∀ j w, write j = some w → w.2.2.2 = 255) :
    alphaInvariant (pixelWrites write n) i := by
  by_cases hi : i < n
  · obtain ⟨e0, e1, e2, e3⟩ := pixelWrites_pixel write n i hi
    cases hw : write i with
    | none =>
      rw [alphaInvariant, e0, e1, e2, e3, hw]
      exact ⟨Or.inl rfl, fun _ => ⟨rfl, rfl, rfl⟩⟩
    | some w =>
      obtain ⟨r, g, b, a⟩ := w
      have ha : a = 255 := h i (r, g, b, a) hw
      subst ha
      rw [alphaInvariant, e3, hw]
      refine ⟨Or.inr rfl, ?_⟩
      intro hcontra
      exact absurd hcontra (by simp [pixA])
  · have h4 := pixelWrites_untouched write n
    rw [alphaInvariant, h4 _ (by omega), h4 _ (by omega), h4 _ (by omega),
      h4 _ (by omega)]
    exact ⟨Or.inl rfl, fun _ => ⟨rfl, rfl, rfl⟩⟩

/-- C10: every RGBA buffer the extraction paths produce — the grayscale
compositor of `extract_tile_with_stretch` / `extract_pixel_tile`, the RGB
compositor of `extract_rgb_tile` / the cross-layer variants, and the all-zero
`create_empty_tile` buffer — satisfies, at every pixel index, the invariant
that alpha is 0 or 255 and a zero alpha comes with zero color bytes. -/
theorem tile_buffers_alpha_invariant (gpow : ℚ → ℚ) (s rs gs bs : StretchParams)
    (nodata rnd gnd bnd : Option ℚ) (data rdata gdata bdata : List FVal) (i : ℕ) :
    alphaInvariant (extract_gray_pixels gpow s nodata data) i ∧
      alphaInvariant (extract_rgb_pixels gpow rs gs bs rnd gnd bnd rdata gdata bdata) i ∧
      alphaInvariant zeroBuf i := by
  refine ⟨?_, ?_, ?_⟩
  · rw [extract_gray_pixels]
    apply pixelWrites_alphaInvariant
    intro j w hw
    cases hs : apply_stretch gpow (data.getD j (.finite 0)) s nodata with
    | none => rw [hs] at hw; exact absurd hw (by simp)
    | some v =>
      rw [hs] at hw
      simp only [Option.some.injEq] at hw
      rw [← hw]
  · rw [extract_rgb_pixels]
    apply pixelWrites_alphaInvariant
    intro j w hw
    simp only at hw
    split at hw
    · simp only [Option.some.injEq] at hw
      rw [← hw]
    · exact absurd hw (by simp)
  · exact ⟨Or.inl rfl, fun _ => ⟨rfl, rfl, rfl⟩⟩

/-! ## Histogram computation (`compute_histogram_bins`, `raster.rs` lines 49-91) -/

/-- Bin placement of `compute_histogram_bins`:
`((value - min) / range * (bin_count - 1) as f64).floor() as usize` followed by
`.min(bin_count - 1)`.  The `as usize` cast of the (here non-negative) float is
`Int.toNat`, which is also the lower clamp at 0. -/
def binIndex (vmin vmax : ℚ) (bin_count : ℕ) (value : ℚ) : ℕ :=
  Nat.min (Int.toNat ⌊(value - vmin) / (vmax - vmin) * ((bin_count - 1 : ℕ) : ℚ)⌋)
    (bin_count - 1)

/-- A sample is counted by the histogram iff it is not nodata-matching and lies
within `[min, max]` inclusive. -/
def histCounted (vmin vmax : ℚ) (nodata : Option ℚ) (v : ℚ) : Bool :=
  !nearNodata v nodata && decide (vmin ≤ v) && decide (v ≤ vmax)

/-- Body of the binning loop of `compute_histogram_bins` (the `range > 0`
branch): skip nodata-matching values, then count in-range values into their
clamped bin. -/
def histStep (vmin vmax : ℚ) (bin_count : ℕ) (nodata : Option ℚ)
    (counts : List ℕ) (value : ℚ) : List ℕ :=
  if nearNodata value nodata then counts
  else if vmin ≤ value ∧ value ≤ vmax then
    counts.set (binIndex vmin vmax bin_count value)
      (counts.getD (binIndex vmin vmax bin_count value) 0 + 1)
  else counts

/-- Model of `compute_histogram_bins` (`raster.rs` lines 49-91), returning
`(counts, bin_edges)`.  Modelled for `bin_count ≥ 1` (at `bin_count = 0` the
Rust code underflows `bin_count - 1` and indexes out of bounds). -/
def compute_histogram_bins (values : List ℚ) (vmin vmax : ℚ) (bin_count : ℕ)
    (nodata : Option ℚ) : List ℕ × List ℚ :=
  let range := vmax - vmin
  let counts :=
    if 0 < range then
      values.foldl (histStep vmin vmax bin_count nodata)
        (List.replicate bin_count 0)
    else
      (List.replicate bin_count 0).set 0
        (values.countP (fun v => !nearNodata v nodata))
  let bin_width := range / (bin_count : ℚ)
  (counts, (List.range (bin_count + 1)).map (fun i : ℕ => vmin + (i : ℚ) * bin_width))

theorem getD_set_self : ∀ (l : List ℕ) (i a : ℕ), i < l.length →
    (l.set i a).getD i 0 = a := by
  intro l
  induction l with
  | nil => intro i a h; simp at h
  | cons x xs ih =>
    intro i a h
    cases i with
    | zero => rfl
    | succ n => exact ih n a (by simpa using h)

theorem getD_set_ne : ∀ (l : List ℕ) (i j a : ℕ), i ≠ j →
    (l.set i a).getD j 0 = l.getD j 0 := by
  intro l
  induction l with
  | nil => intro i j a _; simp [List.set]
  | cons x xs ih =>
    intro i j a hij
    cases i with
    | zero =>
      cases j with
      | zero => exact absurd rfl hij
      | succ m => rfl
    | succ n =>
      cases j with
      | zero => rfl
      | succ m => exact ih n m a (by omega)

theorem sum_set_add_one : ∀ (l : List ℕ) (i : ℕ), i < l.length →
    (l.set i (l.getD i 0 + 1)).sum = l.sum + 1 := by
  intro l
  induction l with
  | nil => intro i h; simp at h
  | cons x xs ih =>
    intro i h
    cases i with
    | zero =>
      simp only [List.getD_cons_zero, List.set, List.sum_cons]
      omega
    | succ n =>
      have hn := ih n (by simpa using h)
      simp only [List.getD_cons_succ, List.set, List.sum_cons]
      omega

theorem getD_replicate_zero : ∀ (n j : ℕ), (List.replicate n (0 : ℕ)).getD j 0 = 0 := by
  intro n
  induction n with
  | zero => intro j; rfl
  | succ n ih =>
    intro j
    cases j with
    | zero => rfl
    | succ m => exact ih m

theorem binIndex_lt (vmin vmax : ℚ) (bin_count : ℕ) (hb : 1 ≤ bin_count)
    (value : ℚ) : binIndex vmin vmax bin_count value < bin_count := by
  rw [binIndex]
  exact Nat.lt_of_le_of_lt (Nat.min_le_right _ _) (by omega)

theorem hist_fold_spec (vmin vmax : ℚ) (bin_count : ℕ) (nodata : Option ℚ)
    (hb : 1 ≤ bin_count) :
    ∀ (values : List ℚ) (counts0 : List ℕ), counts0.length = bin_count →
      (values.foldl (histStep vmin vmax bin_count nodata) counts0).length = bin_count ∧
        (values.foldl (histStep vmin vmax bin_count nodata) counts0).sum =
          counts0.sum + values.countP (histCounted vmin vmax nodata) ∧
        ∀ j : ℕ,
          (values.foldl (histStep vmin vmax bin_count nodata) counts0).getD j 0 =
            counts0.getD j 0 + values.countP (fun v =>
              histCounted vmin vmax nodata v &&
                decide (binIndex vmin vmax bin_count v = j)) := by
  intro values
  induction values with
  | nil =>
    intro c0 hlen
    refine ⟨hlen, by simp, fun j => by simp⟩
  | cons v vs ih =>
    intro c0 hlen
    rw [List.foldl_cons]
    by_cases h1 : nearNodata v nodata = true
    · have hstep : histStep vmin vmax bin_count nodata c0 v = c0 := by
        rw [histStep, if_pos h1]
      rw [hstep]
      obtain ⟨hl, hs, hj⟩ := ih c0 hlen
      refine ⟨hl, ?_, ?_⟩
      · rw [hs, List.countP_cons]
        simp [histCounted, h1]
      · intro j
        rw [hj j, List.countP_cons]
        simp [histCounted, h1]
    · by_cases h2 : vmin ≤ v ∧ v ≤ vmax
      · have hstep : histStep vmin vmax bin_count nodata c0 v =
            c0.set (binIndex vmin vmax bin_count v)
              (c0.getD (binIndex vmin vmax bin_count v) 0 + 1) := by
          rw [histStep, if_neg (by simp [h1]), if_pos h2]
        rw [hstep]
        have hbi : binIndex vmin vmax bin_count v < c0.length := by
          rw [hlen]; exact binIndex_lt vmin vmax bin_count hb v
        obtain ⟨hl, hs, hj⟩ := ih
          (c0.set (binIndex vmin vmax bin_count v)
            (c0.getD (binIndex vmin vmax bin_count v) 0 + 1))
          (by rw [List.length_set]; exact hlen)
        refine ⟨hl, ?_, ?_⟩
        · rw [hs, sum_set_add_one c0 _ hbi, List.countP_cons]
          have hcv : histCounted vmin vmax nodata v = true := by
            simp [histCounted, h1, h2.1, h2.2]
          rw [hcv]
          simp only [if_true]
          omega
        · intro j
          rw [hj j, List.countP_cons]
          by_cases hjb : binIndex vmin vmax bin_count v = j
          · subst hjb
            rw [getD_set_self c0 _ _ hbi]
            have hp : (histCounted vmin vmax nodata v &&
                decide (binIndex vmin vmax bin_count v =
                  binIndex vmin vmax bin_count v)) = true := by
              simp [histCounted, h1, h2.1, h2.2]
            rw [hp]
            simp only [if_true]
            omega
          · rw [getD_set_ne c0 _ _ _ hjb]
            have hp : (histCounted vmin vmax nodata v &&
                decide (binIndex vmin vmax bin_count v = j)) = false := by
              simp [hjb]
            rw [hp]
            simp
      · have hstep : histStep vmin vmax bin_count nodata c0 v = c0 := by
          rw [histStep, if_neg (by simp [h1]), if_neg h2]
        rw [hstep]
        obtain ⟨hl, hs, hj⟩ := ih c0 hlen
        have hcv : histCounted vmin vmax nodata v = false := by
          rw [Decidable.not_and_iff_or_not] at h2
          rcases h2 with h | h <;> simp [histCounted, h]
        refine ⟨hl, ?_, ?_⟩
        · rw [hs, List.countP_cons, hcv]
          simp
        · intro j
          rw [hj j, List.countP_cons, hcv]
          simp

/-- C3: for `max > min` and a positive bin count, the counts of
`compute_histogram_bins` sum to the number of non-nodata input values within
`[min, max]` inclusive, every bin holds exactly the values whose clamped
`floor((v - min) / (max - min) * (binCount - 1))` index equals that bin, the
bin-edge vector has length `binCount + 1`, and its first and last entries are
exactly `min` and `max`. -/
theorem compute_histogram_bins_spec (values : List ℚ) (vmin vmax : ℚ)
    (bin_count : ℕ) (nodata : Option ℚ) (hr : vmin < vmax) (hb : 1 ≤ bin_count) :
    (compute_histogram_bins values vmin vmax bin_count nodata).1.sum =
        values.countP (histCounted vmin vmax nodata) ∧
      (∀ j : ℕ,
        (compute_histogram_bins values vmin vmax bin_count nodata).1.getD j 0 =
          values.countP (fun v => histCounted vmin vmax nodata v &&
            decide (binIndex vmin vmax bin_count v = j))) ∧
      (compute_histogram_bins values vmin vmax bin_count nodata).2.length =
        bin_count + 1 ∧
      (compute_histogram_bins values vmin vmax bin_count nodata).2.getD 0 0 = vmin ∧
      (compute_histogram_bins values vmin vmax bin_count nodata).2.getD bin_count 0 =
        vmax := by
  have hpos : (0 : ℚ) < vmax - vmin := by linarith
  obtain ⟨hl, hs, hj⟩ := hist_fold_spec vmin vmax bin_count nodata hb values
    (List.replicate bin_count 0) (by simp)
  have hcounts : (compute_histogram_bins values vmin vmax bin_count nodata).1 =
      values.foldl (histStep vmin vmax bin_count nodata)
        (List.replicate bin_count 0) := by
    rw [compute_histogram_bins]
    simp only [if_pos hpos]
  have hedges : (compute_histogram_bins values vmin vmax bin_count nodata).2 =
      (List.range (bin_count + 1)).map
        (fun i : ℕ => vmin + (i : ℚ) * ((vmax - vmin) / (bin_count : ℚ))) := by
    rw [compute_histogram_bins]
  have hbc : ((bin_count : ℚ)) ≠ 0 := Nat.cast_ne_zero.mpr (by omega)
  refine ⟨?_, ?_, ?_, ?_, ?_⟩
  · rw [hcounts, hs]
    simp
  · intro j
    rw [hcounts, hj j, getD_replicate_zero]
    omega
  · rw [hedges]
    simp
  · rw [hedges]
    have h0 : (0 : ℕ) < bin_count + 1 := by omega
    rw [List.getD_eq_getElem?_getD, List.getElem?_map, List.getElem?_range h0]
    simp
  · rw [hedges]
    have h0 : bin_count < bin_count + 1 := by omega
    rw [List.getD_eq_getElem?_getD, List.getElem?_map, List.getElem?_range h0]
    show vmin + (bin_count : ℚ) * ((vmax - vmin) / (bin_count : ℚ)) = vmax
    field_simp

/-- C3 witness: concrete histogram over `[1, 3, -9999]` with window `[0, 4]`,
two bins and nodata sentinel `-9999`. -/
theorem compute_histogram_bins_spec_witness :
    (compute_histogram_bins [1, 3, -9999] 0 4 2 (some (-9999))).1.sum =
      ([1, 3, -9999] : List ℚ).countP (histCounted 0 4 (some (-9999))) :=
  (compute_histogram_bins_spec [1, 3, -9999] 0 4 2 (some (-9999)) (by norm_num)
    (by norm_num)).1

/-! ## Non-georeferenced tile sampling (`extract_raw_pixel_tile` /
`extract_pixel_tile`, `tile_extractor.rs` lines 354-418 and 554-648) -/

/-- Model of `i64::max` (used as `(..).max(1)` on the isize rectangle sizes). -/
def intMax (a b : ℤ) : ℤ := if a ≤ b then b else a

/-- Axis-aligned bounds `[minX, minY, maxX, maxY]` as used throughout the
source (`[f64; 4]`). -/
structure Bounds4 where
  minX : ℚ
  minY : ℚ
  maxX : ℚ
  maxY : ℚ
deriving DecidableEq

/-- `bounds_intersect` (`tile_extractor.rs` lines 119-121): inclusive AABB
overlap test. -/
def bounds_intersect (a b : Bounds4) : Bool :=
  !(decide (a.maxX < b.minX) || decide (a.minX > b.maxX) ||
    decide (a.maxY < b.minY) || decide (a.minY > b.maxY))

/-- Synthetic geographic bounds of a non-georeferenced image: centered at the
origin, `scale = 0.01` units per pixel, vertical half-extent clamped to 85. -/
def imgGeoBounds (img_width img_height : ℕ) : Bounds4 :=
  let scale : ℚ := 1 / 100
  let half_width := ((img_width : ℚ) * scale) / 2
  let half_height := ((img_height : ℚ) * scale) / 2
  let clamped_half_height := ratMin half_height 85
  ⟨-half_width, -clamped_half_height, half_width, clamped_half_height⟩

/-- The clamped source-pixel rectangle `(src_x, src_y, src_x_end, src_y_end)`
computed by `extract_raw_pixel_tile` / `extract_pixel_tile`:
`src_x = floor(max(src_x_f, 0))`, `src_x_end = ceil(min(src_x_end_f, width))`
and likewise for y.  The tile's geographic bounds are taken as an input (in
the source they come from `tile_to_geo_bounds`, whose latitude uses the
transcendental `atan ∘ sinh`). -/
def pixelSrcRect (tb : Bounds4) (img_width img_height : ℕ) : ℤ × ℤ × ℤ × ℤ :=
  let scale : ℚ := 1 / 100
  let half_width := ((img_width : ℚ) * scale) / 2
  let half_height := ((img_height : ℚ) * scale) / 2
  let clamped_half_height := ratMin half_height 85
  let pixel_scale_y :=
    if 85 < half_height then (clamped_half_height * 2) / (img_height : ℚ) else scale
  let src_x_f := (tb.minX + half_width) / scale
  let src_y_f := (clamped_half_height - tb.maxY) / pixel_scale_y
  let src_x_end_f := (tb.maxX + half_width) / scale
  let src_y_end_f := (clamped_half_height - tb.minY) / pixel_scale_y
  (⌊ratMax src_x_f 0⌋, ⌊ratMax src_y_f 0⌋,
    ⌈ratMin src_x_end_f (img_width : ℚ)⌉, ⌈ratMin src_y_end_f (img_height : ℚ)⌉)

/-- What the non-georeferenced sampler does with a tile request: either it
produces the all-zero grid (`vec![0.0; ...]` / `create_empty_tile`) without
touching the dataset, or it reads the window `(src_x, src_y)` with size
`(src_width, src_height)` from the dataset (resampled to the tile size). -/
inductive PixelTileOutcome where
  | zeros
  | readWindow (src_x src_y : ℤ) (src_width src_height : ℕ)
deriving DecidableEq

/-- Model of the control flow of `extract_raw_pixel_tile` (lines 355-417); the
clamping and checks are shared verbatim with `extract_pixel_tile`
(lines 554-631). -/
def extract_raw_pixel_tile (tb : Bounds4) (img_width img_height : ℕ) :
    PixelTileOutcome :=
  if !(bounds_intersect tb (imgGeoBounds img_width img_height)) then .zeros
  else
    let r := pixelSrcRect tb img_width img_height
    let src_width := (intMax (r.2.2.1 - r.1) 1).toNat
    let src_height := (intMax (r.2.2.2 - r.2.1) 1).toNat
    if src_width = 0 ∨ src_height = 0 ∨ (img_width : ℤ) ≤ r.1 ∨
        (img_height : ℤ) ≤ r.2.1 then .zeros
    else .readWindow r.1 r.2.1 src_width src_height

theorem intMax_one_toNat_pos (a : ℤ) : 1 ≤ (intMax a 1).toNat := by
  rw [intMax]
  split_ifs with h
  · rfl
  · omega

/-- C4 counterexample: a 18000×100 image (synthetic bounds `[-90, -0.5, 90,
0.5]`) and a tile with bounds `[-180, 0, -90, 66]` that touches the image's
left edge.  The computed source rectangle is degenerate (`src_x_end - src_x =
0`), yet the sampler does not return the all-zero grid: the width is clamped
up to 1 and a 1×50 window is read from the dataset. -/
theorem pixel_tile_degenerate_rect_still_reads :
    (pixelSrcRect ⟨-180, 0, -90, 66⟩ 18000 100).2.2.1 -
        (pixelSrcRect ⟨-180, 0, -90, 66⟩ 18000 100).1 = 0 ∧
      extract_raw_pixel_tile ⟨-180, 0, -90, 66⟩ 18000 100 =
        .readWindow 0 0 1 50 ∧
      extract_raw_pixel_tile ⟨-180, 0, -90, 66⟩ 18000 100 ≠ .zeros := by
  have hrect : pixelSrcRect ⟨-180, 0, -90, 66⟩ 18000 100 = (0, 0, 0, 50) := by
    rw [pixelSrcRect]
    norm_num [ratMin, ratMax]
  have hbi : bounds_intersect ⟨-180, 0, -90, 66⟩ (imgGeoBounds 18000 100) = true := by
    rw [imgGeoBounds, bounds_intersect]
    norm_num [ratMin]
  have hmain : extract_raw_pixel_tile ⟨-180, 0, -90, 66⟩ 18000 100 =
      .readWindow 0 0 1 50 := by
    have h50 : Int.toNat 50 = 50 := rfl
    have h1 : Int.toNat 1 = 1 := rfl
    rw [extract_raw_pixel_tile, hbi, hrect]
    norm_num [intMax, h50, h1]
  refine ⟨by rw [hrect]; norm_num, hmain, by rw [hmain]; simp⟩

/-- C4 (amended): the non-georeferenced sampler returns the all-zero grid
exactly when the tile's geographic bounds fail to intersect the image's
synthetic bounds, or the clamped source origin lies at or beyond the image's
right or bottom edge.  A degenerate computed rectangle (zero width or height)
does not by itself produce the zero grid: the sizes are clamped up to 1 pixel
and the dataset is read, so every read window has positive width and height. -/
theorem extract_raw_pixel_tile_zeros_iff (tb : Bounds4) (img_width img_height : ℕ) :
    (extract_raw_pixel_tile tb img_width img_height = .zeros ↔
      bounds_intersect tb (imgGeoBounds img_width img_height) = false ∨
        (img_width : ℤ) ≤ (pixelSrcRect tb img_width img_height).1 ∨
        (img_height : ℤ) ≤ (pixelSrcRect tb img_width img_height).2.1) ∧
      ∀ sx sy : ℤ, ∀ sw sh : ℕ,
        extract_raw_pixel_tile tb img_width img_height = .readWindow sx sy sw sh →
          1 ≤ sw ∧ 1 ≤ sh := by
  have hw := intMax_one_toNat_pos ((pixelSrcRect tb img_width img_height).2.2.1 -
    (pixelSrcRect tb img_width img_height).1)
  have hh := intMax_one_toNat_pos ((pixelSrcRect tb img_width img_height).2.2.2 -
    (pixelSrcRect tb img_width img_height).2.1)
  cases hbi : bounds_intersect tb (imgGeoBounds img_width img_height) with
  | false =>
    have hz : extract_raw_pixel_tile tb img_width img_height = .zeros := by
      rw [extract_raw_pixel_tile, hbi]
      rfl
    rw [hz]
    refine ⟨⟨fun _ => Or.inl rfl, fun _ => rfl⟩, ?_⟩
    intro sx sy sw sh h
    exact absurd h (by simp)
  | true =>
    rw [extract_raw_pixel_tile, hbi]
    simp only [Bool.not_true, Bool.false_eq_true, if_false]
    by_cases hout : (img_width : ℤ) ≤ (pixelSrcRect tb img_width img_height).1 ∨
        (img_height : ℤ) ≤ (pixelSrcRect tb img_width img_height).2.1
    · rw [if_pos ?side]
      case side =>
        rcases hout with h | h
        · exact Or.inr (Or.inr (Or.inl h))
        · exact Or.inr (Or.inr (Or.inr h))
      constructor
      · constructor
        · intro _
          exact Or.inr hout
        · intro _
          rfl
      · intro sx sy sw sh h
        exact absurd h (by simp)
    · rw [if_neg ?side]
      case side =>
        intro hcon
        rcases hcon with h | h | h | h
        · omega
        · omega
        · exact hout (Or.inl h)
        · exact hout (Or.inr h)
      constructor
      · constructor
        · intro h
          exact absurd h (by simp)
        · intro hcon
          rcases hcon with h | h
          · exact absurd h (by simp)
          · exact absurd h hout
      · intro sx sy sw sh h
        simp only [PixelTileOutcome.readWindow.injEq] at h
        obtain ⟨_, _, h3, h4⟩ := h
        rw [← h3, ← h4]
        exact ⟨hw, hh⟩

/-! ## Elevation profiles (`get_elevation_profile` lines 813-980 and
`get_elevation_profile_pixels` lines 1004-1133 of `raster.rs`) -/

/-- One entry of the profile: `ProfilePoint { distance, elevation, lng, lat,
is_valid }` (the pixel variant stores the pixel coordinates in `lng`/`lat`). -/
structure ProfilePoint where
  distance : ℚ
  elevation : ℚ
  lng : ℚ
  lat : ℚ
  is_valid : Bool
deriving DecidableEq

/-- `ProfileResult` as serialized to the frontend. -/
structure ProfileResult where
  points : List ProfilePoint
  min_elevation : ℚ
  max_elevation : ℚ
  total_distance : ℚ
  elevation_gain : ℚ
  elevation_loss : ℚ
deriving DecidableEq

/-- The mutable accumulator of the sampling loop: `min_elev` / `max_elev`
(source initializes them to `±INFINITY` and replaces a non-finite result by 0
at the end; the `Option` is the same protocol), `elevation_gain`,
`elevation_loss` and `prev_elevation`. -/
structure ProfileAcc where
  minElev : Option ℚ
  maxElev : Option ℚ
  gain : ℚ
  loss : ℚ
  prev : Option ℚ
deriving DecidableEq

/-- The per-sample accumulation of `get_elevation_profile` (lines 948-961) and
`get_elevation_profile_pixels` (lines 1101-1114): only a valid sample updates
the extrema, adds `diff > 0` to the gain or `|diff|` to the loss against
`prev_elevation` when one exists, and becomes the new `prev_elevation`.
An invalid sample leaves the whole accumulator — including `prev_elevation` —
unchanged. -/
def profileStep (acc : ProfileAcc) (elevation : ℚ) (isValid : Bool) : ProfileAcc :=
  match isValid with
  | true =>
    let minE := some (match acc.minElev with
      | some m => ratMin m elevation
      | none => elevation)
    let maxE := some (match acc.maxElev with
      | some m => ratMax m elevation
      | none => elevation)
    match acc.prev with
    | some prev =>
      let diff := elevation - prev
      if 0 < diff then ⟨minE, maxE, acc.gain + diff, acc.loss, some elevation⟩
      else ⟨minE, maxE, acc.gain, acc.loss + ratAbs diff, some elevation⟩
    | none => ⟨minE, maxE, acc.gain, acc.loss, some elevation⟩
  | false => acc

/-- `profileStep` folded over a sample sequence from the loop's initial
accumulator. -/
def profileAccum (samples : List (ℚ × Bool)) : ProfileAcc :=
  samples.foldl (fun a p => profileStep a p.1 p.2) ⟨none, none, 0, 0, none⟩

/-- The `(elevation, is_valid)` sample sequence of a point list. -/
def pairsOf (pts : List ProfilePoint) : List (ℚ × Bool) :=
  pts.map (fun p => (p.elevation, p.is_valid))

/-- Elevations of the valid samples, in order. -/
def validElevs (samples : List (ℚ × Bool)) : List ℚ :=
  (samples.filter (fun p => p.2)).map (fun p => p.1)

/-- Total positive delta over consecutive entries of a sequence. -/
def gainOfSeq : List ℚ → ℚ
  | a :: b :: rest => (if a < b then b - a else 0) + gainOfSeq (b :: rest)
  | _ => 0

/-- Total `|delta|` over consecutive non-increasing entries of a sequence
(the source adds `diff.abs()` also when `diff = 0`, which contributes 0). -/
def lossOfSeq : List ℚ → ℚ
  | a :: b :: rest => (if a < b then 0 else a - b) + lossOfSeq (b :: rest)
  | _ => 0

/-- The gain prescribed by the C1 claim's wording: a delta is counted only
between CONSECUTIVE sample points that are both valid — an invalid sample
resets the reference, so the first valid sample after it contributes
nothing. -/
def resetGain : List (ℚ × Bool) → ℚ
  | (a, ta) :: (b, tb) :: rest =>
      (if ta && tb && decide (a < b) then b - a else 0) + resetGain ((b, tb) :: rest)
  | _ => 0

/-- Rust `f64::round`: round half away from zero. -/
def rustRound (q : ℚ) : ℤ := if 0 ≤ q then ⌊q + 1 / 2⌋ else -⌊-q + 1 / 2⌋

/-- Per-segment lengths: `for i in 1..coords.len() { dist(coords[i-1],
coords[i]) }`.  The distance function (Haversine for the geographic variant,
Euclidean `pixel_distance` for the pixel variant) is transcendental and passed
as an oracle. -/
def segmentLengths {α : Type} (dist : α → α → ℚ) (coords : List α) : List ℚ :=
  (coords.zip coords.tail).map (fun p => dist p.1 p.2)

/-- The `while segment_idx < segment_lengths.len() && segment_start_distance +
segment_lengths[segment_idx] < target_distance` advance loop, written with a
fuel argument `segs.length - idx` (the loop increments `idx` each iteration
and stops at `segs.length`, so the fuel never runs out before the guard
fails). -/
def advanceAux (segs : List ℚ) (target : ℚ) : ℕ → ℕ → ℚ → ℕ × ℚ
  | 0, idx, start => (idx, start)
  | fuel + 1, idx, start =>
    if idx < segs.length ∧ start + segs.getD idx 0 < target then
      advanceAux segs target fuel (idx + 1) (start + segs.getD idx 0)
    else (idx, start)

/-- Entry point of the advance loop from the loop state `(idx, start)`. -/
def advanceSegment (segs : List ℚ) (idx : ℕ) (start target : ℚ) : ℕ × ℚ :=
  advanceAux segs target (segs.length - idx) idx start

/-- The six affine geotransform coefficients. -/
structure GeoTransformQ where
  gt0 : ℚ
  gt1 : ℚ
  gt2 : ℚ
  gt3 : ℚ
  gt4 : ℚ
  gt5 : ℚ
deriving DecidableEq

/-- State threaded through the sampling `for` loop: the current segment index
and its start distance (shared across iterations), the accumulator and the
collected points. -/
structure ProfileLoopState where
  segIdx : ℕ
  segStart : ℚ
  acc : ProfileAcc
  points : List ProfilePoint
deriving DecidableEq

/-- One iteration of the geographic sampling loop (lines 892-970): advance to
the segment containing `target = i * step`, linearly interpolate the lng/lat
position, optionally transform to the native CRS (`tf` stands for the GDAL
`CoordTransform`), invert the geotransform with `floor`, bounds-check, read
one pixel through the `read` oracle and classify it against the nodata
sentinel, then accumulate and push the point. -/
def profileBodyGeo (coords : List (ℚ × ℚ)) (segs : List ℚ) (step : ℚ)
    (tf : Option ((ℚ × ℚ) → ℚ × ℚ)) (gt : GeoTransformQ) (width height : ℕ)
    (read : ℤ → ℤ → ℚ) (nodata : Option ℚ)
    (st : ProfileLoopState) (i : ℕ) : ProfileLoopState :=
  let target := (i : ℚ) * step
  let adv := advanceSegment segs st.segIdx st.segStart target
  let pos :=
    if segs.length ≤ adv.1 then coords.getD (coords.length - 1) (0, 0)
    else
      let progress := (target - adv.2) / segs.getD adv.1 0
      let c0 := coords.getD adv.1 (0, 0)
      let c1 := coords.getD (adv.1 + 1) (0, 0)
      (c0.1 + (c1.1 - c0.1) * progress, c0.2 + (c1.2 - c0.2) * progress)
  let native := match tf with | some f => f pos | none => pos
  let pixel_x : ℤ := ⌊(native.1 - gt.gt0) / gt.gt1⌋
  let pixel_y : ℤ := ⌊(native.2 - gt.gt3) / gt.gt5⌋
  let ev : ℚ × Bool :=
    if 0 ≤ pixel_x ∧ pixel_x < (width : ℤ) ∧ 0 ≤ pixel_y ∧ pixel_y < (height : ℤ) then
      let value := read pixel_x pixel_y
      if nearNodata value nodata then (0, false) else (value, true)
    else (0, false)
  ⟨adv.1, adv.2, profileStep st.acc ev.1 ev.2,
    st.points ++ [⟨target, ev.1, pos.1, pos.2, ev.2⟩]⟩

/-- Model of `get_elevation_profile` (lines 813-980): compute the segment
lengths and the total distance, reject a zero-length line, then run the
sampling loop for `i in 0..samples` and assemble the result (a non-finite
extremum, i.e. no valid sample, reports 0). -/
def get_elevation_profile_model (dist : (ℚ × ℚ) → (ℚ × ℚ) → ℚ)
    (tf : Option ((ℚ × ℚ) → ℚ × ℚ)) (gt : GeoTransformQ) (width height : ℕ)
    (read : ℤ → ℤ → ℚ) (nodata : Option ℚ)
    (coords : List (ℚ × ℚ)) (samples : ℕ) : Except String ProfileResult :=
  let segment_lengths := segmentLengths dist coords
  let total_distance := segment_lengths.sum
  if total_distance = 0 then .error "Line has zero length"
  else
    let step := total_distance / ((samples : ℚ) - 1)
    let final := (List.range samples).foldl
      (profileBodyGeo coords segment_lengths step tf gt width height read nodata)
      ⟨0, 0, ⟨none, none, 0, 0, none⟩, []⟩
    .ok ⟨final.points,
      (match final.acc.minElev with | some m => m | none => 0),
      (match final.acc.maxElev with | some m => m | none => 0),
      total_distance, final.acc.gain, final.acc.loss⟩

/-- One iteration of the pixel-space sampling loop (lines 1055-1123): same
structure as the geographic one, except the interpolated position is rounded
(`x.round() as i32`) and bounds-checked directly against the raster size. -/
def profileBodyPixels (pixel_coords : List (ℤ × ℤ)) (segs : List ℚ) (step : ℚ)
    (width height : ℕ) (read : ℤ → ℤ → ℚ) (nodata : Option ℚ)
    (st : ProfileLoopState) (i : ℕ) : ProfileLoopState :=
  let target := (i : ℚ) * step
  let adv := advanceSegment segs st.segIdx st.segStart target
  let pos : ℤ × ℤ :=
    if segs.length ≤ adv.1 then pixel_coords.getD (pixel_coords.length - 1) (0, 0)
    else
      let progress := (target - adv.2) / segs.getD adv.1 0
      let c0 := pixel_coords.getD adv.1 (0, 0)
      let c1 := pixel_coords.getD (adv.1 + 1) (0, 0)
      (rustRound ((c0.1 : ℚ) + ((c1.1 - c0.1 : ℤ) : ℚ) * progress),
        rustRound ((c0.2 : ℚ) + ((c1.2 - c0.2 : ℤ) : ℚ) * progress))
  let ev : ℚ × Bool :=
    if 0 ≤ pos.1 ∧ pos.1 < (width : ℤ) ∧ 0 ≤ pos.2 ∧ pos.2 < (height : ℤ) then
      let value := read pos.1 pos.2
      if nearNodata value nodata then (0, false) else (value, true)
    else (0, false)
  ⟨adv.1, adv.2, profileStep st.acc ev.1 ev.2,
    st.points ++ [⟨target, ev.1, (pos.1 : ℚ), (pos.2 : ℚ), ev.2⟩]⟩

/-- Model of `get_elevation_profile_pixels` (lines 1004-1133). -/
def get_elevation_profile_pixels_model (dist : (ℤ × ℤ) → (ℤ × ℤ) → ℚ)
    (width height : ℕ) (read : ℤ → ℤ → ℚ) (nodata : Option ℚ)
    (pixel_coords : List (ℤ × ℤ)) (samples : ℕ) : Except String ProfileResult :=
  let segment_lengths := segmentLengths dist pixel_coords
  let total_distance := segment_lengths.sum
  if total_distance = 0 then .error "Line has zero length"
  else
    let step := total_distance / ((samples : ℚ) - 1)
    let final := (List.range samples).foldl
      (profileBodyPixels pixel_coords segment_lengths step width height read nodata)
      ⟨0, 0, ⟨none, none, 0, 0, none⟩, []⟩
    .ok ⟨final.points,
      (match final.acc.minElev with | some m => m | none => 0),
      (match final.acc.maxElev with | some m => m | none => 0),
      total_distance, final.acc.gain, final.acc.loss⟩

/-- C7: a polyline whose computed total segment length is 0 (for example, all
waypoints identical, where both Haversine and Euclidean distances are exactly
0) is rejected with the explicit "Line has zero length" input error in both
profile variants, for EVERY pixel-read oracle — no raster sampling can
influence or avert the error, and no `total/(samples-1)` division is
reached. -/
theorem zero_length_profile_rejected (dist1 : (ℚ × ℚ) → (ℚ × ℚ) → ℚ)
    (tf : Option ((ℚ × ℚ) → ℚ × ℚ)) (gt : GeoTransformQ) (w1 h1 : ℕ)
    (read1 : ℤ → ℤ → ℚ) (nd1 : Option ℚ) (coords1 : List (ℚ × ℚ)) (n1 : ℕ)
    (dist2 : (ℤ × ℤ) → (ℤ × ℤ) → ℚ) (w2 h2 : ℕ) (read2 : ℤ → ℤ → ℚ)
    (nd2 : Option ℚ) (coords2 : List (ℤ × ℤ)) (n2 : ℕ)
    (hz1 : (segmentLengths dist1 coords1).sum = 0)
    (hz2 : (segmentLengths dist2 coords2).sum = 0) :
    get_elevation_profile_model dist1 tf gt w1 h1 read1 nd1 coords1 n1 =
        .error "Line has zero length" ∧
      get_elevation_profile_pixels_model dist2 w2 h2 read2 nd2 coords2 n2 =
        .error "Line has zero length" := by
  constructor
  · rw [get_elevation_profile_model]
    simp only [if_pos hz1]
  · rw [get_elevation_profile_pixels_model]
    simp only [if_pos hz2]

/-- C7 witness: the degenerate two-point polylines `[(0,0), (0,0)]` (with the
distance oracle returning 0 on the identical endpoints, as Haversine and
`pixel_distance` do) are rejected by both variants. -/
theorem zero_length_profile_rejected_witness :
    (segmentLengths (fun _ _ => (0 : ℚ)) [((0 : ℚ), (0 : ℚ)), (0, 0)]).sum = 0 ∧
      (segmentLengths (fun _ _ => (0 : ℚ)) [((0 : ℤ), (0 : ℤ)), (0, 0)]).sum = 0 ∧
      get_elevation_profile_model (fun _ _ => 0) none ⟨0, 1, 0, 0, 0, 1⟩ 4 4
          (fun _ _ => 7) none [((0 : ℚ), (0 : ℚ)), (0, 0)] 100 =
        .error "Line has zero length" ∧
      get_elevation_profile_pixels_model (fun _ _ => 0) 4 4 (fun _ _ => 7) none
          [((0 : ℤ), (0 : ℤ)), (0, 0)] 100 =
        .error "Line has zero length" := by
  have h1 : (segmentLengths (fun _ _ => (0 : ℚ)) [((0 : ℚ), (0 : ℚ)), (0, 0)]).sum = 0 := by
    simp [segmentLengths]
  have h2 : (segmentLengths (fun _ _ => (0 : ℚ)) [((0 : ℤ), (0 : ℤ)), (0, 0)]).sum = 0 := by
    simp [segmentLengths]
  obtain ⟨hm1, hm2⟩ := zero_length_profile_rejected (fun _ _ => 0) none
    ⟨0, 1, 0, 0, 0, 1⟩ 4 4 (fun _ _ => 7) none [((0 : ℚ), (0 : ℚ)), (0, 0)] 100
    (fun _ _ => 0) 4 4 (fun _ _ => 7) none [((0 : ℤ), (0 : ℤ)), (0, 0)] 100 h1 h2
  exact ⟨h1, h2, hm1, hm2⟩

theorem profileAccum_append (l : List (ℚ × Bool)) (p : ℚ × Bool) :
    profileAccum (l ++ [p]) = profileStep (profileAccum l) p.1 p.2 := by
  rw [profileAccum, profileAccum, List.foldl_append, List.foldl_cons,
    List.foldl_nil]

theorem validElevs_cons_true (e : ℚ) (l : List (ℚ × Bool)) :
    validElevs ((e, true) :: l) = e :: validElevs l := by
  simp [validElevs]

theorem validElevs_cons_false (e : ℚ) (l : List (ℚ × Bool)) :
    validElevs ((e, false) :: l) = validElevs l := by
  simp [validElevs]


theorem profileStep_components (mE xE : Option ℚ) (g lo : ℚ) (pv : Option ℚ)
    (e : ℚ) :
    ((profileStep ⟨mE, xE, g, lo, pv⟩ e true).gain =
        match pv with
        | some p => if 0 < e - p then g + (e - p) else g
        | none => g) ∧
      ((profileStep ⟨mE, xE, g, lo, pv⟩ e true).loss =
        match pv with
        | some p => if 0 < e - p then lo else lo + ratAbs (e - p)
        | none => lo) ∧
      (profileStep ⟨mE, xE, g, lo, pv⟩ e true).prev = some e ∧
      profileStep ⟨mE, xE, g, lo, pv⟩ e false = ⟨mE, xE, g, lo, pv⟩ := by
  cases pv with
  | none => exact ⟨rfl, rfl, rfl, rfl⟩
  | some p =>
    refine ⟨?_, ?_, ?_, rfl⟩
    · simp only [profileStep]
      split_ifs <;> rfl
    · simp only [profileStep]
      split_ifs <;> rfl
    · simp only [profileStep]
      split_ifs <;> rfl

theorem profileStep_fold_gain_loss :
    ∀ (l : List (ℚ × Bool)) (acc : ProfileAcc),
      (l.foldl (fun a p => profileStep a p.1 p.2) acc).gain =
          acc.gain + (match acc.prev with
            | some p => gainOfSeq (p :: validElevs l)
            | none => gainOfSeq (validElevs l)) ∧
        (l.foldl (fun a p => profileStep a p.1 p.2) acc).loss =
          acc.loss + (match acc.prev with
            | some p => lossOfSeq (p :: validElevs l)
            | none => lossOfSeq (validElevs l)) := by
  intro l
  induction l with
  | nil =>
    intro acc
    cases acc.prev with
    | none => simp [validElevs, gainOfSeq, lossOfSeq]
    | some p => simp [validElevs, gainOfSeq, lossOfSeq]
  | cons s rest ih =>
    intro acc
    obtain ⟨mE, xE, g, lo, pv⟩ := acc
    obtain ⟨e, v⟩ := s
    rw [List.foldl_cons]
    cases v with
    | false =>
      have hstep : profileStep ⟨mE, xE, g, lo, pv⟩ (e, false).1 (e, false).2 =
          ⟨mE, xE, g, lo, pv⟩ := rfl
      show ((List.foldl (fun a p => profileStep a p.1 p.2)
          (profileStep ⟨mE, xE, g, lo, pv⟩ (e, false).1 (e, false).2) rest)).gain =
            _ ∧ _
      rw [hstep, validElevs_cons_false]
      exact ih ⟨mE, xE, g, lo, pv⟩
    | true =>
      obtain ⟨hg', hl', hp', _⟩ := profileStep_components mE xE g lo pv e
      obtain ⟨ihg, ihl⟩ := ih (profileStep ⟨mE, xE, g, lo, pv⟩ e true)
      show ((List.foldl (fun a p => profileStep a p.1 p.2)
          (profileStep ⟨mE, xE, g, lo, pv⟩ e true) rest)).gain = _ ∧ _
      rw [validElevs_cons_true]
      constructor
      · rw [ihg, hg', hp']
        cases pv with
        | none => rfl
        | some p =>
          show (if 0 < e - p then g + (e - p) else g) +
              gainOfSeq (e :: validElevs rest) =
            g + gainOfSeq (p :: e :: validElevs rest)
          rw [gainOfSeq]
          by_cases hd : (0 : ℚ) < e - p
          · rw [if_pos hd, if_pos (by linarith)]
            ring
          · rw [if_neg hd, if_neg (by intro h; exact hd (by linarith))]
            ring
      · rw [ihl, hl', hp']
        cases pv with
        | none => rfl
        | some p =>
          show (if 0 < e - p then lo else lo + ratAbs (e - p)) +
              lossOfSeq (e :: validElevs rest) =
            lo + lossOfSeq (p :: e :: validElevs rest)
          rw [lossOfSeq]
          by_cases hd : (0 : ℚ) < e - p
          · rw [if_pos hd, if_pos (by linarith)]
            ring
          · have habs : ratAbs (e - p) = p - e := by
              rw [ratAbs]
              split_ifs with h2
              · ring
              · push_neg at hd h2
                linarith
            rw [if_neg hd, if_neg (by intro h; exact hd (by linarith)), habs]
            ring

theorem profileAccum_gain_loss (L : List (ℚ × Bool)) :
    (profileAccum L).gain = gainOfSeq (validElevs L) ∧
      (profileAccum L).loss = lossOfSeq (validElevs L) := by
  obtain ⟨hg, hl⟩ := profileStep_fold_gain_loss L ⟨none, none, 0, 0, none⟩
  rw [profileAccum]
  constructor
  · rw [hg]; simp
  · rw [hl]; simp

theorem profileBodyGeo_inv (coords : List (ℚ × ℚ)) (segs : List ℚ) (step : ℚ)
    (tf : Option ((ℚ × ℚ) → ℚ × ℚ)) (gt : GeoTransformQ) (width height : ℕ)
    (read : ℤ → ℤ → ℚ) (nodata : Option ℚ) (st : ProfileLoopState) (i : ℕ)
    (h : st.acc = profileAccum (pairsOf st.points)) :
    (profileBodyGeo coords segs step tf gt width height read nodata st i).acc =
      profileAccum (pairsOf
        (profileBodyGeo coords segs step tf gt width height read nodata st i).points) := by
  have key : ∀ (T E X Y : ℚ) (V : Bool),
      profileAccum (pairsOf (st.points ++ [⟨T, E, X, Y, V⟩])) =
        profileStep (profileAccum (pairsOf st.points)) E V := by
    intro T E X Y V
    rw [pairsOf, List.map_append]
    have hone : List.map (fun p => (p.elevation, p.is_valid))
        [(⟨T, E, X, Y, V⟩ : ProfilePoint)] = [(E, V)] := rfl
    rw [hone, ← pairsOf, profileAccum_append]
  simp only [profileBodyGeo]
  rw [key, ← h]

theorem profileBodyPixels_inv (pixel_coords : List (ℤ × ℤ)) (segs : List ℚ)
    (step : ℚ) (width height : ℕ) (read : ℤ → ℤ → ℚ) (nodata : Option ℚ)
    (st : ProfileLoopState) (i : ℕ)
    (h : st.acc = profileAccum (pairsOf st.points)) :
    (profileBodyPixels pixel_coords segs step width height read nodata st i).acc =
      profileAccum (pairsOf
        (profileBodyPixels pixel_coords segs step width height read nodata st i).points) := by
  have key : ∀ (T E X Y : ℚ) (V : Bool),
      profileAccum (pairsOf (st.points ++ [⟨T, E, X, Y, V⟩])) =
        profileStep (profileAccum (pairsOf st.points)) E V := by
    intro T E X Y V
    rw [pairsOf, List.map_append]
    have hone : List.map (fun p => (p.elevation, p.is_valid))
        [(⟨T, E, X, Y, V⟩ : ProfilePoint)] = [(E, V)] := rfl
    rw [hone, ← pairsOf, profileAccum_append]
  simp only [profileBodyPixels]
  rw [key, ← h]

theorem foldl_profileBodyGeo_inv (coords : List (ℚ × ℚ)) (segs : List ℚ)
    (step : ℚ) (tf : Option ((ℚ × ℚ) → ℚ × ℚ)) (gt : GeoTransformQ)
    (width height : ℕ) (read : ℤ → ℤ → ℚ) (nodata : Option ℚ) :
    ∀ (l : List ℕ) (st : ProfileLoopState),
      st.acc = profileAccum (pairsOf st.points) →
      (l.foldl (profileBodyGeo coords segs step tf gt width height read nodata) st).acc =
        profileAccum (pairsOf
          (l.foldl (profileBodyGeo coords segs step tf gt width height read nodata) st).points) := by
  intro l
  induction l with
  | nil => intro st h; exact h
  | cons x xs ih =>
    intro st h
    rw [List.foldl_cons]
    exact ih _ (profileBodyGeo_inv coords segs step tf gt width height read nodata st x h)

theorem foldl_profileBodyPixels_inv (pixel_coords : List (ℤ × ℤ)) (segs : List ℚ)
    (step : ℚ) (width height : ℕ) (read : ℤ → ℤ → ℚ) (nodata : Option ℚ) :
    ∀ (l : List ℕ) (st : ProfileLoopState),
      st.acc = profileAccum (pairsOf st.points) →
      (l.foldl (profileBodyPixels pixel_coords segs step width height read nodata) st).acc =
        profileAccum (pairsOf
          (l.foldl (profileBodyPixels pixel_coords segs step width height read nodata) st).points) := by
  intro l
  induction l with
  | nil => intro st h; exact h
  | cons x xs ih =>
    intro st h
    rw [List.foldl_cons]
    exact ih _ (profileBodyPixels_inv pixel_coords segs step width height read nodata st x h)

theorem geo_model_ok_gain_loss (dist : (ℚ × ℚ) → (ℚ × ℚ) → ℚ)
    (tf : Option ((ℚ × ℚ) → ℚ × ℚ)) (gt : GeoTransformQ) (width height : ℕ)
    (read : ℤ → ℤ → ℚ) (nodata : Option ℚ) (coords : List (ℚ × ℚ))
    (samples : ℕ) (res : ProfileResult)
    (h : get_elevation_profile_model dist tf gt width height read nodata coords
      samples = .ok res) :
    res.elevation_gain = gainOfSeq (validElevs (pairsOf res.points)) ∧
      res.elevation_loss = lossOfSeq (validElevs (pairsOf res.points)) := by
  simp only [get_elevation_profile_model] at h
  by_cases ht : (segmentLengths dist coords).sum = 0
  · rw [if_pos ht] at h
    exact absurd h (by simp)
  · rw [if_neg ht] at h
    have h' := Except.ok.inj h
    subst h'
    have hinv := foldl_profileBodyGeo_inv coords (segmentLengths dist coords)
      ((segmentLengths dist coords).sum / ((samples : ℚ) - 1)) tf gt width height
      read nodata (List.range samples) ⟨0, 0, ⟨none, none, 0, 0, none⟩, []⟩ rfl
    constructor
    · simp only []
      rw [hinv, (profileAccum_gain_loss _).1]
    · simp only []
      rw [hinv, (profileAccum_gain_loss _).2]

theorem pixels_model_ok_gain_loss (dist : (ℤ × ℤ) → (ℤ × ℤ) → ℚ)
    (width height : ℕ) (read : ℤ → ℤ → ℚ) (nodata : Option ℚ)
    (pixel_coords : List (ℤ × ℤ)) (samples : ℕ) (res : ProfileResult)
    (h : get_elevation_profile_pixels_model dist width height read nodata
      pixel_coords samples = .ok res) :
    res.elevation_gain = gainOfSeq (validElevs (pairsOf res.points)) ∧
      res.elevation_loss = lossOfSeq (validElevs (pairsOf res.points)) := by
  simp only [get_elevation_profile_pixels_model] at h
  by_cases ht : (segmentLengths dist pixel_coords).sum = 0
  · rw [if_pos ht] at h
    exact absurd h (by simp)
  · rw [if_neg ht] at h
    have h' := Except.ok.inj h
    subst h'
    have hinv := foldl_profileBodyPixels_inv pixel_coords
      (segmentLengths dist pixel_coords)
      ((segmentLengths dist pixel_coords).sum / ((samples : ℚ) - 1)) width height
      read nodata (List.range samples) ⟨0, 0, ⟨none, none, 0, 0, none⟩, []⟩ rfl
    constructor
    · simp only []
      rw [hinv, (profileAccum_gain_loss _).1]
    · simp only []
      rw [hinv, (profileAccum_gain_loss _).2]

/-- C1 (amended): in both profile variants, the returned elevation gain and
loss are exactly the pairwise positive/absolute-negative delta sums over the
subsequence of VALID samples, in order.  An invalid sample (nodata-matching or
out of raster bounds) contributes no delta, but it does NOT reset the
"previous elevation" reference: the first valid sample after an invalid
stretch is compared against the last valid elevation before it. -/
theorem profile_gain_loss_valid_subsequence (dist1 : (ℚ × ℚ) → (ℚ × ℚ) → ℚ)
    (tf : Option ((ℚ × ℚ) → ℚ × ℚ)) (gt : GeoTransformQ) (w1 h1 : ℕ)
    (read1 : ℤ → ℤ → ℚ) (nd1 : Option ℚ) (coords1 : List (ℚ × ℚ)) (n1 : ℕ)
    (res1 : ProfileResult) (dist2 : (ℤ × ℤ) → (ℤ × ℤ) → ℚ) (w2 h2 : ℕ)
    (read2 : ℤ → ℤ → ℚ) (nd2 : Option ℚ) (coords2 : List (ℤ × ℤ)) (n2 : ℕ)
    (res2 : ProfileResult)
    (hr1 : get_elevation_profile_model dist1 tf gt w1 h1 read1 nd1 coords1 n1 =
      .ok res1)
    (hr2 : get_elevation_profile_pixels_model dist2 w2 h2 read2 nd2 coords2 n2 =
      .ok res2) :
    res1.elevation_gain = gainOfSeq (validElevs (pairsOf res1.points)) ∧
      res1.elevation_loss = lossOfSeq (validElevs (pairsOf res1.points)) ∧
      res2.elevation_gain = gainOfSeq (validElevs (pairsOf res2.points)) ∧
      res2.elevation_loss = lossOfSeq (validElevs (pairsOf res2.points)) :=
  ⟨(geo_model_ok_gain_loss dist1 tf gt w1 h1 read1 nd1 coords1 n1 res1 hr1).1,
    (geo_model_ok_gain_loss dist1 tf gt w1 h1 read1 nd1 coords1 n1 res1 hr1).2,
    (pixels_model_ok_gain_loss dist2 w2 h2 read2 nd2 coords2 n2 res2 hr2).1,
    (pixels_model_ok_gain_loss dist2 w2 h2 read2 nd2 coords2 n2 res2 hr2).2⟩

/-- Pixel-read oracle for the C1 counterexample: a 3×1 raster holding the
values 10, -9999 (the nodata sentinel), 20. -/
def c1read : ℤ → ℤ → ℚ := fun x _ => if x = 0 then 10 else if x = 1 then -9999 else 20

/-- C1 counterexample: a pixel-coordinate profile along the horizontal line
(0,0)–(2,0) of a 3×1 raster with values `[10, nodata, 20]` and 3 samples
(`pixel_distance((0,0),(2,0)) = sqrt 4 = 2` exactly, supplied as the distance
oracle).  The middle sample is invalid, and the returned elevation gain is 10:
the third sample is compared against the elevation 10 of the FIRST sample, so
the "previous elevation" reference was not reset by the invalid sample.  The
claim's semantics — gain only between consecutive valid sample points, with an
invalid sample resetting the reference (`resetGain`) — prescribes gain 0 for
the same run. -/
theorem profile_gain_not_reset_on_invalid :
    get_elevation_profile_pixels_model (fun _ _ => 2) 3 1 c1read (some (-9999))
        [(0, 0), (2, 0)] 3 =
      .ok ⟨[⟨0, 10, 0, 0, true⟩, ⟨1, 0, 1, 0, false⟩, ⟨2, 20, 2, 0, true⟩],
        10, 20, 2, 10, 0⟩ ∧
      resetGain (pairsOf [⟨0, 10, 0, 0, true⟩, ⟨1, 0, 1, 0, false⟩,
        ⟨2, 20, 2, 0, true⟩]) = 0 ∧
      (10 : ℚ) ≠ 0 := by
  have hr3 : List.range 3 = [0, 1, 2] := rfl
  refine ⟨?_, ?_, by norm_num⟩
  · norm_num [get_elevation_profile_pixels_model, segmentLengths,
      profileBodyPixels, advanceSegment, advanceAux, profileStep, rustRound,
      nearNodata, ratAbs, ratMin, ratMax, c1read, hr3, List.getD_cons_zero,
      List.getD_cons_succ]
  · norm_num [resetGain, pairsOf]

/-- C1 witness: a two-sample all-valid run of each profile variant, to which
the amended gain/loss characterization applies. -/
theorem profile_gain_loss_valid_subsequence_witness :
    get_elevation_profile_model (fun _ _ => 1) none ⟨0, 1, 0, 0, 0, 1⟩ 2 1
        (fun _ _ => 5) none [((0 : ℚ), (0 : ℚ)), (1, 0)] 2 =
      .ok ⟨[⟨0, 5, 0, 0, true⟩, ⟨1, 5, 1, 0, true⟩], 5, 5, 1, 0, 0⟩ ∧
      get_elevation_profile_pixels_model (fun _ _ => 1) 2 1 (fun _ _ => 5) none
          [((0 : ℤ), (0 : ℤ)), (1, 0)] 2 =
        .ok ⟨[⟨0, 5, 0, 0, true⟩, ⟨1, 5, 1, 0, true⟩], 5, 5, 1, 0, 0⟩ ∧
      (⟨[⟨0, 5, 0, 0, true⟩, ⟨1, 5, 1, 0, true⟩], 5, 5, 1, 0, 0⟩ :
          ProfileResult).elevation_gain =
        gainOfSeq (validElevs (pairsOf
          (⟨[⟨0, 5, 0, 0, true⟩, ⟨1, 5, 1, 0, true⟩], 5, 5, 1, 0, 0⟩ :
            ProfileResult).points)) := by
  have hr2 : List.range 2 = [0, 1] := rfl
  have h1 : get_elevation_profile_model (fun _ _ => 1) none ⟨0, 1, 0, 0, 0, 1⟩ 2 1
      (fun _ _ => 5) none [((0 : ℚ), (0 : ℚ)), (1, 0)] 2 =
      .ok ⟨[⟨0, 5, 0, 0, true⟩, ⟨1, 5, 1, 0, true⟩], 5, 5, 1, 0, 0⟩ := by
    norm_num [get_elevation_profile_model, segmentLengths, profileBodyGeo,
      advanceSegment, advanceAux, profileStep, rustRound, nearNodata, ratAbs,
      ratMin, ratMax, hr2, List.getD_cons_zero, List.getD_cons_succ]
  have h2 : get_elevation_profile_pixels_model (fun _ _ => 1) 2 1 (fun _ _ => 5)
      none [((0 : ℤ), (0 : ℤ)), (1, 0)] 2 =
      .ok ⟨[⟨0, 5, 0, 0, true⟩, ⟨1, 5, 1, 0, true⟩], 5, 5, 1, 0, 0⟩ := by
    norm_num [get_elevation_profile_pixels_model, segmentLengths,
      profileBodyPixels, advanceSegment, advanceAux, profileStep, rustRound,
      nearNodata, ratAbs, ratMin, ratMax, hr2, List.getD_cons_zero,
      List.getD_cons_succ]
  exact ⟨h1, h2,
    (profile_gain_loss_valid_subsequence (fun _ _ => 1) none ⟨0, 1, 0, 0, 0, 1⟩
      2 1 (fun _ _ => 5) none [((0 : ℚ), (0 : ℚ)), (1, 0)] 2 _
      (fun _ _ => 1) 2 1 (fun _ _ => 5) none [((0 : ℤ), (0 : ℤ)), (1, 0)] 2 _
      h1 h2).1⟩

/-! ## Pixel value queries (`query_pixel_value` lines 689-789,
`query_pixel_value_at_pixel` lines 1136-1190 of `raster.rs`) -/

/-- `PixelBandValue { band, value, is_nodata }`. -/
structure PixelBandValue where
  band : ℕ
  value : ℚ
  is_nodata : Bool
deriving DecidableEq

/-- `PixelValueResult { x, y, values, is_valid }`. -/
structure PixelValueResult where
  x : ℤ
  y : ℤ
  values : List PixelBandValue
  is_valid : Bool
deriving DecidableEq

/-- The pixel coordinate computed by `query_pixel_value`: the (optional)
transform into the native CRS — the GDAL `CoordTransform`, here the oracle
`tf` — followed by the inverse geotransform with `floor`. -/
def queryPixelCoords (gt : GeoTransformQ) (tf : Option ((ℚ × ℚ) → ℚ × ℚ))
    (lng lat : ℚ) : ℤ × ℤ :=
  let native := match tf with | some f => f (lng, lat) | none => (lng, lat)
  (⌊(native.1 - gt.gt0) / gt.gt1⌋, ⌊(native.2 - gt.gt3) / gt.gt5⌋)

/-- The `for band_idx in 1..=band_count` loop shared by both query variants:
read one pixel per band through the `read` oracle and flag nodata matches. -/
def readAllBands (band_count : ℕ) (read : ℕ → ℤ → ℤ → ℚ)
    (nodata : ℕ → Option ℚ) (px py : ℤ) : List PixelBandValue :=
  (List.range' 1 band_count).map (fun b =>
    ⟨b, read b px py, nearNodata (read b px py) (nodata b)⟩)

/-- Model of `query_pixel_value` (lines 689-789) from the point where the
pixel coordinate is computed: out-of-extent pixels return `Ok` with
`is_valid = false` and an empty value list; in-extent pixels read all bands. -/
def query_pixel_value_model (gt : GeoTransformQ)
    (tf : Option ((ℚ × ℚ) → ℚ × ℚ)) (width height band_count : ℕ)
    (read : ℕ → ℤ → ℤ → ℚ) (nodata : ℕ → Option ℚ) (lng lat : ℚ) :
    Except String PixelValueResult :=
  let p := queryPixelCoords gt tf lng lat
  if p.1 < 0 ∨ (width : ℤ) ≤ p.1 ∨ p.2 < 0 ∨ (height : ℤ) ≤ p.2 then
    .ok ⟨p.1, p.2, [], false⟩
  else
    .ok ⟨p.1, p.2, readAllBands band_count read nodata p.1 p.2, true⟩

/-- Model of `query_pixel_value_at_pixel` (lines 1136-1190). -/
def query_pixel_value_at_pixel_model (width height band_count : ℕ)
    (read : ℕ → ℤ → ℤ → ℚ) (nodata : ℕ → Option ℚ) (pixel_x pixel_y : ℤ) :
    Except String PixelValueResult :=
  if pixel_x < 0 ∨ (width : ℤ) ≤ pixel_x ∨ pixel_y < 0 ∨
      (height : ℤ) ≤ pixel_y then
    .ok ⟨pixel_x, pixel_y, [], false⟩
  else
    .ok ⟨pixel_x, pixel_y, readAllBands band_count read nodata pixel_x pixel_y,
      true⟩

/-- C8: a pixel-value query whose computed pixel coordinate falls outside the
raster extent returns a SUCCESSFUL result object with `is_valid = false` and
an empty values list — never an error — in both the geographic and the
pixel-coordinate variants. -/
theorem out_of_extent_query_is_ok_invalid (gt : GeoTransformQ)
    (tf : Option ((ℚ × ℚ) → ℚ × ℚ)) (w1 ht1 bc1 : ℕ) (read1 : ℕ → ℤ → ℤ → ℚ)
    (nd1 : ℕ → Option ℚ) (lng lat : ℚ) (w2 ht2 bc2 : ℕ)
    (read2 : ℕ → ℤ → ℤ → ℚ) (nd2 : ℕ → Option ℚ) (px py : ℤ)
    (hout1 : (queryPixelCoords gt tf lng lat).1 < 0 ∨
      (w1 : ℤ) ≤ (queryPixelCoords gt tf lng lat).1 ∨
      (queryPixelCoords gt tf lng lat).2 < 0 ∨
      (ht1 : ℤ) ≤ (queryPixelCoords gt tf lng lat).2)
    (hout2 : px < 0 ∨ (w2 : ℤ) ≤ px ∨ py < 0 ∨ (ht2 : ℤ) ≤ py) :
    query_pixel_value_model gt tf w1 ht1 bc1 read1 nd1 lng lat =
        .ok ⟨(queryPixelCoords gt tf lng lat).1,
          (queryPixelCoords gt tf lng lat).2, [], false⟩ ∧
      query_pixel_value_at_pixel_model w2 ht2 bc2 read2 nd2 px py =
        .ok ⟨px, py, [], false⟩ := by
  constructor
  · simp only [query_pixel_value_model]
    rw [if_pos hout1]
  · rw [query_pixel_value_at_pixel_model, if_pos hout2]

/-- C8 witness: the longitude −5 on a 4×4 identity-geotransform raster maps to
pixel x = −5 < 0, and the direct pixel query at (10, 0) is off the right edge;
both return `Ok` with the invalid/empty flag. -/
theorem out_of_extent_query_is_ok_invalid_witness :
    query_pixel_value_model ⟨0, 1, 0, 0, 0, 1⟩ none 4 4 3 (fun _ _ _ => 7)
        (fun _ => none) (-5) 0 = .ok ⟨-5, 0, [], false⟩ ∧
      query_pixel_value_at_pixel_model 4 4 3 (fun _ _ _ => 7) (fun _ => none)
        10 0 = .ok ⟨10, 0, [], false⟩ := by
  have hq : queryPixelCoords ⟨0, 1, 0, 0, 0, 1⟩ none (-5) 0 = (-5, 0) := by
    rw [queryPixelCoords]
    norm_num
  have h := out_of_extent_query_is_ok_invalid ⟨0, 1, 0, 0, 0, 1⟩ none 4 4 3
    (fun _ _ _ => 7) (fun _ => none) (-5) 0 4 4 3 (fun _ _ _ => 7)
    (fun _ => none) 10 0 (by rw [hq]; norm_num) (by norm_num)
  rw [hq] at h
  exact h

/-! ## Band statistics (`compute_band_stats` lines 192-213 and
`get_raster_stats` lines 386-417 of `raster.rs`) -/

/-- `BandStats { band, min, max, mean, std_dev }`. -/
structure BandStats where
  band : ℕ
  min : ℚ
  max : ℚ
  mean : ℚ
  std_dev : ℚ
deriving DecidableEq

/-- Model of `compute_band_stats`: `for i in 1..=band_count`, the external
band lookup plus `compute_raster_min_max` is the oracle `minMax`; a band whose
computation fails (`none`) is silently skipped, the others push
`mean = (min + max) / 2` and `std_dev = (max - min) / 4`. -/
def compute_band_stats (band_count : ℕ) (minMax : ℕ → Option (ℚ × ℚ)) :
    List BandStats :=
  (List.range' 1 band_count).foldl (fun stats i =>
    match minMax i with
    | some mm => stats ++ [⟨i, mm.1, mm.2, (mm.1 + mm.2) / 2, (mm.2 - mm.1) / 4⟩]
    | none => stats) []

/-- Model of `get_raster_stats`: a failed min/max computation surfaces as an
error (message abstracted); otherwise mean and stdDev are the min/max
approximations. -/
def get_raster_stats_model (band : ℕ) (minMax : Option (ℚ × ℚ)) :
    Except String BandStats :=
  match minMax with
  | none => .error "Failed to compute statistics"
  | some mm => .ok ⟨band, mm.1, mm.2, (mm.1 + mm.2) / 2, (mm.2 - mm.1) / 4⟩

theorem compute_band_stats_fold (minMax : ℕ → Option (ℚ × ℚ)) :
    ∀ (l : List ℕ) (acc : List BandStats),
      (∀ s ∈ acc, s.mean = (s.min + s.max) / 2 ∧ s.std_dev = (s.max - s.min) / 4) →
      ∀ s ∈ l.foldl (fun stats i =>
          match minMax i with
          | some mm => stats ++
              [⟨i, mm.1, mm.2, (mm.1 + mm.2) / 2, (mm.2 - mm.1) / 4⟩]
          | none => stats) acc,
        s.mean = (s.min + s.max) / 2 ∧ s.std_dev = (s.max - s.min) / 4 := by
  intro l
  induction l with
  | nil => intro acc hacc; exact hacc
  | cons x xs ih =>
    intro acc hacc
    rw [List.foldl_cons]
    apply ih
    cases hm : minMax x with
    | none => exact hacc
    | some mm =>
      intro s hs
      rcases List.mem_append.1 hs with h | h
      · exact hacc s h
      · have hseq : s = ⟨x, mm.1, mm.2, (mm.1 + mm.2) / 2, (mm.2 - mm.1) / 4⟩ := by
          simpa using h
        subst hseq
        exact ⟨rfl, rfl⟩

/-- C9: every band statistics record either query produces satisfies
`mean = (min + max) / 2` and `stdDev = (max - min) / 4` exactly — the values
are derived from min/max, not from the full distribution — both in the
all-bands aggregation (`compute_band_stats`, used by the metadata path, where
failing bands are skipped) and in the single-band `get_raster_stats`. -/
theorem band_stats_mean_std_from_min_max (band_count : ℕ)
    (minMax : ℕ → Option (ℚ × ℚ)) :
    (∀ s ∈ compute_band_stats band_count minMax,
        s.mean = (s.min + s.max) / 2 ∧ s.std_dev = (s.max - s.min) / 4) ∧
      ∀ (band : ℕ) (mm : Option (ℚ × ℚ)) (s : BandStats),
        get_raster_stats_model band mm = .ok s →
          s.mean = (s.min + s.max) / 2 ∧ s.std_dev = (s.max - s.min) / 4 := by
  constructor
  · rw [compute_band_stats]
    exact compute_band_stats_fold minMax (List.range' 1 band_count) []
      (by intro s hs; exact absurd hs (by simp))
  · intro band mm s h
    cases mm with
    | none => exact absurd h (by simp [get_raster_stats_model])
    | some mm =>
      have hs : (⟨band, mm.1, mm.2, (mm.1 + mm.2) / 2, (mm.2 - mm.1) / 4⟩ :
          BandStats) = s := by
        simpa [get_raster_stats_model] using h
      rw [← hs]
      exact ⟨rfl, rfl⟩

/-- C9 witness: band 1 with min/max (0, 4) yields mean 2 and stdDev 1 in both
paths. -/
theorem band_stats_mean_std_witness :
    ((⟨1, 0, 4, 2, 1⟩ : BandStats).mean =
        ((⟨1, 0, 4, 2, 1⟩ : BandStats).min + (⟨1, 0, 4, 2, 1⟩ : BandStats).max) / 2 ∧
      (⟨1, 0, 4, 2, 1⟩ : BandStats).std_dev =
        ((⟨1, 0, 4, 2, 1⟩ : BandStats).max - (⟨1, 0, 4, 2, 1⟩ : BandStats).min) / 4) ∧
      get_raster_stats_model 1 (some (0, 4)) = .ok ⟨1, 0, 4, 2, 1⟩ := by
  have hr : List.range' 1 1 = [1] := rfl
  constructor
  · exact (band_stats_mean_std_from_min_max 1 (fun _ => some (0, 4))).1
      ⟨1, 0, 4, 2, 1⟩ (by norm_num [compute_band_stats, hr])
  · norm_num [get_raster_stats_model]

/-- C4 witness: a tile entirely outside a 100×100 image's synthetic bounds
`[-0.5, -0.5, 0.5, 0.5]` produces the all-zero grid. -/
theorem extract_raw_pixel_tile_zeros_iff_witness :
    extract_raw_pixel_tile ⟨200, 100, 300, 200⟩ 100 100 = .zeros :=
  (extract_raw_pixel_tile_zeros_iff ⟨200, 100, 300, 200⟩ 100 100).1.mpr
    (Or.inl (by norm_num [bounds_intersect, imgGeoBounds, ratMin]))
